import Mathlib

/-!
Verification of the Sming `Wiring::String` value type (WString.h).

The repository ships only the class header `src/Sming/Wiring/WString.h`;
the bodies declared there but implemented in `WString.cpp` are not part of
the source tree, so those operations are modelled from the specification
(each such definition is marked `Modelled from the spec:`).  Everything
whose body is in the header (default constructor, `length`, `isNull`,
`buffer`/`cbuffer`, `capacity`, `setlen`, `c_str`, the move-assignment
self-check, the `(const char*, size_t)` constructor guard) is translated
directly from that code.

Strings are byte sequences; we model bytes as `Char` (only ASCII values
appear in the claims) and buffers as `List Char` of exact physical size.
A C `const char*` argument is `Option (List Char)`; `none` is the null
pointer.  The ambient allocator is an oracle `Nat → Bool` telling whether
an allocation of the requested byte count succeeds.
-/

namespace Wiring

/-- The NUL terminator byte. -/
def nul : Char := Char.ofNat 0

/-- Default build value of the STRING_OBJECT_SIZE configuration constant. -/
def STRING_OBJECT_SIZE : Nat := 12

/-- From WString.h: `SSO_CAPACITY = STRING_OBJECT_SIZE - 2`, the maximum
character count (excluding the NUL terminator) storable inline. -/
def SSO_CAPACITY : Nat := STRING_OBJECT_SIZE - 2

/-- Heap variant `PtrBuf` from WString.h: buffer pointer (null = `none`,
otherwise a block of `capacity + 1` physical bytes), content length, and
capacity (array length minus one, reserving room for the terminator). -/
structure PtrBuf where
  buffer : Option (List Char)
  len : Nat
  capacity : Nat
deriving DecidableEq

/-- SSO variant `SsoBuf` from WString.h: a fixed array of
`SSO_CAPACITY + 1` physical bytes plus a 7-bit length field.  The `set`
discriminator bit is modelled by which union constructor is active. -/
structure SsoBuf where
  buffer : List Char
  len : Nat
deriving DecidableEq

/-- The `String` union from WString.h: either the SSO variant
(`sso.set == 1`) or the heap variant. -/
inductive String
  | sso : SsoBuf → String
  | ptr : PtrBuf → String
deriving DecidableEq

/-- From WString.h line 238: `length()` returns `sso.set ? sso.len : ptr.len`. -/
def String.length : String → Nat
  | .sso b => b.len
  | .ptr b => b.len

/-- From WString.h line 837: `isNull()` is `!sso.set && (ptr.buffer == nullptr)`. -/
def String.isNull : String → Bool
  | .sso _ => false
  | .ptr b => b.buffer.isNone

/-- From WString.h line 849: `cbuffer()` returns `sso.set ? sso.buffer : ptr.buffer`
(a possibly-null pointer). -/
def String.cbuffer : String → Option (List Char)
  | .sso b => some b.buffer
  | .ptr b => b.buffer

/-- From WString.h line 855: `capacity()` returns `sso.set ? SSO_CAPACITY : ptr.capacity`. -/
def String.capacity : String → Nat
  | .sso _ => SSO_CAPACITY
  | .ptr b => b.capacity

/-- From WString.h lines 861-872: `setlen(len)` stores the new length and
writes the NUL terminator at index `len` of the active buffer; in heap mode
the terminator is written only when the buffer pointer is non-null. -/
def String.setlen : String → Nat → String
  | .sso b, n => .sso ⟨b.buffer.set n nul, n⟩
  | .ptr b, n => .ptr ⟨b.buffer.map (fun buf => buf.set n nul), n, b.capacity⟩

/-- The logical content of a string: the first `length` bytes of the active
buffer (empty for a null string). -/
def String.content (s : String) : List Char := (s.cbuffer.getD []).take s.length

/-- Boolean-context evaluation (WString.h lines 399-402): true iff the
string is not null. -/
def String.boolCtx (s : String) : Bool := !s.isNull

/-- Whether the SSO (inline) variant is active. -/
def String.ssoMode : String → Bool
  | .sso _ => true
  | .ptr _ => false

/-- From WString.h line 152: the default constructor builds `ptr{nullptr, 0, 0}`,
a null String. -/
def defaultString : String := .ptr ⟨none, 0, 0⟩

/-- Well-formedness of a physical buffer holding `len` content bytes in a
block of `cap + 1` bytes: exact physical size, length within capacity, and
the NUL terminator at index `len`. -/
def wfBuf (buf : List Char) (len cap : Nat) : Bool :=
  (buf.length == cap + 1) && (len ≤ cap) && (buf.getD len 'x' == nul)

/-- Representation invariant (spec I1-I4): SSO buffers have exact physical
size `SSO_CAPACITY + 1` with terminator in place; a heap string either is
null with zero length and capacity, or owns a block of `capacity + 1` bytes
with terminator in place. -/
def wf : String → Bool
  | .sso b => wfBuf b.buffer b.len SSO_CAPACITY
  | .ptr b =>
    match b.buffer with
    | none => (b.len == 0) && (b.capacity == 0)
    | some buf => wfBuf buf b.len b.capacity

/-- The invariant claimed for every non-null string: the byte at
`cbuffer()[length]` is the NUL terminator and `length ≤ capacity`. -/
def termOK (s : String) : Bool :=
  if s.isNull then true
  else ((s.cbuffer.getD []).getD s.length 'x' == nul) && (s.length ≤ s.capacity)

/-- Build a physical buffer of exactly `cap + 1` bytes whose content is
`c` (truncated to `cap`), NUL-filled to the end of the block. -/
def mkBuf (c : List Char) (cap : Nat) : List Char :=
  c.take cap ++ List.replicate (cap + 1 - min c.length cap) nul

/-- Store content `c` into the active storage of `s`, keeping the storage
mode and capacity; used by the modelled mutation primitives after the
allocation policy has guaranteed room. -/
def String.withContent : String → List Char → String
  | .sso _, c => .sso ⟨mkBuf c SSO_CAPACITY, min c.length SSO_CAPACITY⟩
  | .ptr b, c => .ptr ⟨some (mkBuf c b.capacity), min c.length b.capacity, b.capacity⟩

/-- A fresh inline string holding `c` (which must fit in `SSO_CAPACITY`). -/
def mkSso (c : List Char) : String := .sso ⟨mkBuf c SSO_CAPACITY, min c.length SSO_CAPACITY⟩

/-- An allocator that always succeeds. -/
def allocTrue : Nat → Bool := fun _ => true

/-- An allocator that always fails. -/
def allocFalse : Nat → Bool := fun _ => false

/-- Modelled from the spec: `String::reserve` (body in the missing
WString.cpp).  Ensures storage can hold at least `size` content bytes plus
terminator: inline mode when `size ≤ SSO_CAPACITY` and the string is
inline or null, otherwise an allocated or grown heap buffer; existing heap
capacity is never shrunk; on allocation failure the value is left exactly
as before and `false` is returned; `reserve(0)` on a null string validates
it to an empty string. -/
def reserve (alloc : Nat → Bool) (s : String) (size : Nat) : Bool × String :=
  match s with
  | .sso b =>
    if size ≤ SSO_CAPACITY then (true, s)
    else if alloc (size + 1) then
      (true, .ptr ⟨some (mkBuf (b.buffer.take b.len) size), b.len, size⟩)
    else (false, s)
  | .ptr b =>
    match b.buffer with
    | none =>
      if size ≤ SSO_CAPACITY then (true, mkSso [])
      else if alloc (size + 1) then (true, .ptr ⟨some (mkBuf [] size), 0, size⟩)
      else (false, s)
    | some buf =>
      if size ≤ b.capacity then (true, s)
      else if alloc (size + 1) then
        (true, .ptr ⟨some (mkBuf (buf.take b.len) size), b.len, size⟩)
      else (false, s)

/-- Modelled from the spec: `String::setLength` (body in the missing
WString.cpp).  Expands storage if necessary via the allocation policy, then
records the new length via `setlen`, which re-establishes the terminator;
on allocation failure the value is unchanged and `false` is returned;
extra characters are undefined (NUL in this model). -/
def setLength (alloc : Nat → Bool) (s : String) (n : Nat) : Bool × String :=
  let r := reserve alloc s n
  if r.1 then (true, r.2.setlen n) else (false, s)

/-- Modelled from the spec: `String::concat(const char*, size_t)` (body in
the missing WString.cpp).  A null source pointer is treated as an empty
source (no change, success); appending nothing succeeds; otherwise storage
is grown via the allocation policy, the bytes are appended and the length
updated; on allocation failure the value is unchanged and `false` is
returned (append is all-or-nothing). -/
def concat (alloc : Nat → Bool) (s : String) (src : Option (List Char)) (n : Nat) :
    Bool × String :=
  match src with
  | none => (true, s)
  | some bytes =>
    if n = 0 then (true, s)
    else
      let r := reserve alloc s (s.length + n)
      if r.1 then (true, r.2.withContent (s.content ++ bytes.take n))
      else (false, s)

/-- From WString.h lines 316-319: `concat(const String&)` forwards the
argument's buffer pointer and length. -/
def concatString (alloc : Nat → Bool) (s t : String) : Bool × String :=
  concat alloc s t.cbuffer t.length

/-- Does `find` match at the head of `s` (byte-for-byte)? -/
def matchesAt : List Char → List Char → Bool
  | [], _ => true
  | _ :: _, [] => false
  | f :: fs, c :: cs => (f == c) && matchesAt fs cs

/-- One fuelled pass of left-to-right substring replacement: on a match the
replacement is emitted and scanning resumes immediately after the end of
the matched text, so emitted replacement text is never rescanned. -/
def replaceAllAux (find repl : List Char) : Nat → List Char → List Char
  | 0, s => s
  | _ + 1, [] => []
  | fuel + 1, c :: rest =>
    if !find.isEmpty && matchesAt find (c :: rest) then
      repl ++ replaceAllAux find repl fuel ((c :: rest).drop find.length)
    else
      c :: replaceAllAux find repl fuel rest

/-- Replace all non-overlapping occurrences of `find` in `s` by `repl`,
scanning left-to-right and resuming after each replacement's end. -/
def replaceAll (find repl s : List Char) : List Char :=
  replaceAllAux find repl s.length s

/-- Modelled from the spec: `String::replace(find_buf, find_len,
replace_buf, replace_len)` (body in the missing WString.cpp).  Replaces
all non-overlapping occurrences scanned left-to-right, resuming after each
replacement's end; done in place when the result fits the current
capacity, otherwise storage is grown via the allocation policy; on
allocation failure the value is unchanged and `false` is returned
(all-or-nothing). -/
def replaceSeq (alloc : Nat → Bool) (s : String) (find repl : List Char) :
    Bool × String :=
  if s.length = 0 ∨ find = [] then (true, s)
  else
    let c := replaceAll find repl s.content
    if c.length ≤ s.capacity then (true, s.withContent c)
    else
      let r := reserve alloc s c.length
      if r.1 then (true, r.2.withContent c) else (false, s)

/-- Modelled from the spec: `String::remove(index, count)` (body in the
missing WString.cpp).  Deletes the byte range `[index, index + count)`
clamped to `[0, length]`, shifts trailing bytes left and updates the
length in place; no reallocation ever happens (note the absence of an
allocator argument). -/
def removeRange (s : String) (index count : Nat) : String :=
  if s.length ≤ index then s
  else
    let c := min count (s.length - index)
    s.withContent (s.content.take index ++ s.content.drop (index + c))

/-- The default trim character set from WString.h line 763. -/
def defaultTrimSet : List Char := [' ', '\t', '\n', Char.ofNat 11, Char.ofNat 12, '\r']

/-- Remove the leading and trailing bytes of `c` that belong to `set`. -/
def trimList (chars c : List Char) : List Char :=
  ((c.dropWhile chars.contains).reverse.dropWhile chars.contains).reverse

/-- Modelled from the spec: `String::trim(set)` (body in the missing
WString.cpp).  Removes leading and trailing bytes present in `set`, in
place, never reallocating. -/
def trim (s : String) (chars : List Char) : String :=
  if s.length = 0 then s else s.withContent (trimList chars s.content)

/-- ASCII lower-casing of one byte. -/
def asciiToLower (c : Char) : Char :=
  if 'A' ≤ c ∧ c ≤ 'Z' then Char.ofNat (c.toNat + 32) else c

/-- ASCII upper-casing of one byte. -/
def asciiToUpper (c : Char) : Char :=
  if 'a' ≤ c ∧ c ≤ 'z' then Char.ofNat (c.toNat - 32) else c

/-- Modelled from the spec: `String::toLowerCase` (body in the missing
WString.cpp).  Byte-wise ASCII case mapping in place. -/
def toLowerCase (s : String) : String :=
  if s.length = 0 then s else s.withContent (s.content.map asciiToLower)

/-- Modelled from the spec: `String::toUpperCase` (body in the missing
WString.cpp).  Byte-wise ASCII case mapping in place. -/
def toUpperCase (s : String) : String :=
  if s.length = 0 then s else s.withContent (s.content.map asciiToUpper)

/-- Modelled from the spec: `String::pad(minWidth, c)` (body in the
missing WString.cpp).  If `|minWidth|` exceeds the length, fill bytes are
inserted at the start (`minWidth < 0`) or appended at the end
(`minWidth > 0`) until the length reaches `|minWidth|`; otherwise a no-op.
Storage grows via the allocation policy; on failure the value is
unchanged. -/
def pad (alloc : Nat → Bool) (s : String) (minWidth : Int) (c : Char) : Bool × String :=
  let w := minWidth.natAbs
  if w ≤ s.length then (true, s)
  else
    let fill := List.replicate (w - s.length) c
    let cont := if minWidth < 0 then fill ++ s.content else s.content ++ fill
    if w ≤ s.capacity then (true, s.withContent cont)
    else
      let r := reserve alloc s w
      if r.1 then (true, r.2.withContent cont) else (false, s)

/-- Modelled from the spec: `String::setCharAt(index, c)` (body in the
missing WString.cpp).  Writes the byte at `index` when in range; an
out-of-range index is silently ignored (no-op, not an error). -/
def setCharAt (s : String) (index : Nat) (c : Char) : String :=
  if index < s.length then s.withContent (s.content.set index c) else s

/-- Modelled from the spec: `String::operator[](index) const` and
`charAt` (body in the missing WString.cpp).  An out-of-range (or null)
read yields the zero byte. -/
def charAt (s : String) (index : Nat) : Char :=
  if index < s.length then (s.cbuffer.getD []).getD index nul else nul

/-- Modelled from the spec: `String::copy(cstr, length)` (body in the
missing WString.cpp).  Deep-copies the given byte run into freshly
reserved storage; on allocation failure the string is invalidated (the
constructors' documented failure state). -/
def copyFn (alloc : Nat → Bool) (s : String) (bytes : List Char) (n : Nat) : String :=
  let r := reserve alloc s n
  if r.1 then r.2.withContent (bytes.take n) else defaultString

/-- From WString.h lines 165-169: the `(const char*, size_t)` constructor
starts from the default (null) state and calls `copy` only when the
pointer is non-null; a null pointer leaves the String null. -/
def stringFromCStrLen (alloc : Nat → Bool) (cstr : Option (List Char)) (n : Nat) : String :=
  match cstr with
  | none => defaultString
  | some bytes => copyFn alloc defaultString bytes n

/-- Modelled from the spec: `String::operator=(const String&)` (body in
the missing WString.cpp).  Deep-copies the source into independent
storage, reusing the destination's storage via the allocation policy; a
null source yields a null destination; on allocation failure the
destination is marked invalid. -/
def copyAssign (alloc : Nat → Bool) (dst src : String) : String :=
  if src.isNull then defaultString
  else
    let r := reserve alloc dst src.length
    if r.1 then r.2.withContent src.content else defaultString

/-- Modelled from the spec: `String::move(rhs)` (body in the missing
WString.cpp, spec I5).  Transfers the source's representation bits
verbatim to the destination and resets the source to the null state; no
allocation and no deep copy occur (note the absence of an allocator
argument).  The result is `(destination, source)` after the call. -/
def moveFn (_dst src : String) : String × String := (src, defaultString)

/-- From WString.h lines 297-302: move-assignment performs the transfer
only when `this != &rval`; `sameObject` models that address check, and
when it is true the pair `(dst, src)` is the same object twice. -/
def opAssignMove (dst src : String) (sameObject : Bool) : String × String :=
  if sameObject then (dst, src) else moveFn dst src

/-- From WString.h lines 183-186: the move constructor starts from the
default state and calls `move(rval)`. -/
def moveCtor (src : String) : String × String := moveFn defaultString src

/-- Character for digit value `d` (0-9 then a-z), as produced by the
numeric rendering. -/
def digitChar (d : Nat) : Char :=
  if d < 10 then Char.ofNat (48 + d) else Char.ofNat (97 + d - 10)

/-- Fuelled base-`base` digit expansion, most significant digit first. -/
def natDigitsAux (base : Nat) : Nat → Nat → List Char
  | 0, n => [digitChar n]
  | fuel + 1, n =>
    if n < base then [digitChar n]
    else natDigitsAux base fuel (n / base) ++ [digitChar (n % base)]

/-- Base-`base` digit string of `n`. -/
def natDigits (base n : Nat) : List Char := natDigitsAux base n n

/-- Modelled from the spec: the numeric rendering contract shared by the
numeric constructors and `concat` overloads — base-`base` digits with a
leading minus sign for negative values, left-padded with `padc` up to the
minimum field width. -/
def renderNum (num : Int) (base width : Nat) (padc : Char) : List Char :=
  let t := (if num < 0 then ['-'] else []) ++ natDigits base num.natAbs
  List.replicate (width - t.length) padc ++ t

/-- Modelled from the spec: the numeric constructors `String(num, base,
width, pad)` (bodies in the missing WString.cpp) render the value to text
and construct from that byte run. -/
def stringFromNum (alloc : Nat → Bool) (num : Int) (base width : Nat) (padc : Char) :
    String :=
  stringFromCStrLen alloc (some (renderNum num base width padc))
    (renderNum num base width padc).length

/-- From WString.h lines 885-887: `StringSumHelper(const String&)` is the
accumulator built by deep-copying the first operand. -/
def sumHelperOfString (alloc : Nat → Bool) (s : String) : String :=
  copyAssign alloc defaultString s

/-- Modelled from the spec: `operator+(const StringSumHelper&, const
String&)` (body in the missing WString.cpp) appends the right operand to
the accumulator in place and returns the accumulator. -/
def sumAddString (alloc : Nat → Bool) (acc rhs : String) : String :=
  (concatString alloc acc rhs).2

/-- Chained concatenation of a list of operand byte runs into an
accumulator, one append per operand. -/
def chainConcat (alloc : Nat → Bool) (init : String) (parts : List (List Char)) : String :=
  parts.foldl (fun acc p => (concat alloc acc (some p) p.length).2) init

/-- Modelled from the spec: the static member `String::empty` (defined in
the missing WString.cpp), a valid empty string. -/
def empty : String := mkSso []

/-- From WString.h lines 609-612: `c_str()` returns
`cbuffer() ?: empty.cbuffer()` — the active buffer, or the shared static
empty string's buffer when the active pointer is null. -/
def c_str (s : String) : Option (List Char) :=
  match s.cbuffer with
  | some b => some b
  | none => empty.cbuffer

/-- Modelled from the spec: `String::operator=(const char*)` and
`setString(const char*)` (bodies in the missing WString.cpp).  The
NUL-terminated source byte run is deep-copied into the value; a null
source pointer is treated as an empty source (spec section 6), so the
assignment degenerates to assigning an empty byte run. -/
def assignCStr (alloc : Nat → Bool) (dst : String) (cstr : Option (List Char)) : String :=
  copyFn alloc dst (cstr.getD []) (cstr.getD []).length

/-- The five-byte string "hello" stored inline, a concrete test value. -/
def helloS : String := mkSso "hello".toList

theorem wfBuf_iff {buf : List Char} {len cap : Nat} :
    wfBuf buf len cap = true ↔
      buf.length = cap + 1 ∧ len ≤ cap ∧ buf.getD len 'x' = nul := by
  simp [wfBuf, and_assoc]

theorem mkBuf_length (c : List Char) (cap : Nat) : (mkBuf c cap).length = cap + 1 := by
  simp [mkBuf]
  omega

theorem mkBuf_getD_nul {c : List Char} {cap n : Nat} (h1 : min c.length cap ≤ n)
    (h2 : n ≤ cap) : (mkBuf c cap).getD n 'x' = nul := by
  have hl : (c.take cap).length = min cap c.length := by simp
  rw [mkBuf, List.getD_eq_getElem?_getD, List.getElem?_append_right (by omega),
    List.getElem?_replicate, if_pos (by omega)]
  rfl

theorem mkBuf_take {c : List Char} {cap : Nat} (h : c.length ≤ cap) :
    (mkBuf c cap).take c.length = c := by
  rw [mkBuf, List.take_append_of_le_length (by simp; omega), List.take_take]
  simp [Nat.min_eq_left h]

theorem wf_withContent (s : String) (c : List Char) : wf (s.withContent c) = true := by
  cases s with
  | sso b =>
    simp only [String.withContent, wf, wfBuf, Bool.and_eq_true, beq_iff_eq,
      decide_eq_true_eq]
    exact ⟨⟨mkBuf_length c SSO_CAPACITY, min_le_right _ _⟩,
      mkBuf_getD_nul (le_refl _) (min_le_right _ _)⟩
  | ptr b =>
    simp only [String.withContent, wf, wfBuf, Bool.and_eq_true, beq_iff_eq,
      decide_eq_true_eq]
    exact ⟨⟨mkBuf_length c b.capacity, min_le_right _ _⟩,
      mkBuf_getD_nul (le_refl _) (min_le_right _ _)⟩

theorem capacity_withContent (s : String) (c : List Char) :
    (s.withContent c).capacity = s.capacity := by
  cases s <;> rfl

theorem ssoMode_withContent (s : String) (c : List Char) :
    (s.withContent c).ssoMode = s.ssoMode := by
  cases s <;> rfl

theorem isNull_withContent (s : String) (c : List Char) :
    (s.withContent c).isNull = false := by
  cases s <;> rfl

theorem length_withContent (s : String) (c : List Char) :
    (s.withContent c).length = min c.length s.capacity := by
  cases s <;> rfl

theorem content_withContent {s : String} {c : List Char} (h : c.length ≤ s.capacity) :
    (s.withContent c).content = c := by
  have key : ∀ cap, c.length ≤ cap →
      ((mkBuf c cap).take (min c.length cap)) = c := by
    intro cap hc
    rw [min_eq_left hc]
    exact mkBuf_take hc
  cases s with
  | sso b =>
    rw [String.capacity] at h
    rw [String.withContent, String.content, String.cbuffer, String.length, Option.getD_some]
    exact key _ h
  | ptr b =>
    rw [String.capacity] at h
    rw [String.withContent, String.content, String.cbuffer, String.length, Option.getD_some]
    exact key _ h

theorem wf_length_le_capacity {s : String} (h : wf s = true) :
    s.length ≤ s.capacity := by
  cases s with
  | sso b =>
    rw [wf, wfBuf_iff] at h
    exact h.2.1
  | ptr b =>
    cases hb : b.buffer with
    | none =>
      rw [wf, hb] at h
      simp at h
      rw [String.length, String.capacity]
      omega
    | some buf =>
      rw [wf, hb, wfBuf_iff] at h
      exact h.2.1

theorem wf_content_length {s : String} (h : wf s = true) :
    s.content.length = s.length := by
  cases s with
  | sso b =>
    rw [wf, wfBuf_iff] at h
    rw [String.content, String.cbuffer, String.length, Option.getD_some]
    simp
    omega
  | ptr b =>
    cases hb : b.buffer with
    | none =>
      rw [wf, hb] at h
      simp at h
      rw [String.content, String.cbuffer, String.length, hb]
      simp
      omega
    | some buf =>
      rw [wf, hb, wfBuf_iff] at h
      rw [String.content, String.cbuffer, String.length, hb, Option.getD_some]
      simp
      omega

theorem wf_termOK {s : String} (h : wf s = true) : termOK s = true := by
  cases s with
  | sso b =>
    rw [wf, wfBuf_iff] at h
    rw [termOK, if_neg (by rw [String.isNull]; simp)]
    simp only [String.cbuffer, String.length, String.capacity, Option.getD_some,
      Bool.and_eq_true, beq_iff_eq, decide_eq_true_eq]
    exact ⟨h.2.2, h.2.1⟩
  | ptr b =>
    cases hb : b.buffer with
    | none =>
      rw [termOK, if_pos]
      rw [String.isNull, hb]
      rfl
    | some buf =>
      rw [wf, hb, wfBuf_iff] at h
      rw [termOK, if_neg (by rw [String.isNull, hb]; simp)]
      simp only [String.cbuffer, String.length, String.capacity, hb, Option.getD_some,
        Bool.and_eq_true, beq_iff_eq, decide_eq_true_eq]
      exact ⟨h.2.2, h.2.1⟩

theorem isNull_content {s : String} (h : s.isNull = true) : s.content = [] := by
  cases s with
  | sso b => exact absurd h (by rw [String.isNull]; simp)
  | ptr b =>
    rw [String.isNull, Option.isNone_iff_eq_none] at h
    rw [String.content, String.cbuffer, h]
    simp

theorem wf_heapBuf {c : List Char} {len cap : Nat} (hlen : c.length = len)
    (h : len ≤ cap) : wf (String.ptr ⟨some (mkBuf c cap), len, cap⟩) = true := by
  simp only [wf, wfBuf, Bool.and_eq_true, beq_iff_eq, decide_eq_true_eq]
  exact ⟨⟨mkBuf_length c cap, h⟩, mkBuf_getD_nul (by omega) h⟩

theorem content_heapBuf {c : List Char} {len cap : Nat} (hlen : c.length = len)
    (h : len ≤ cap) : (String.ptr ⟨some (mkBuf c cap), len, cap⟩).content = c := by
  subst hlen
  show (mkBuf c cap).take c.length = c
  exact mkBuf_take h

theorem wf_mkSsoNil : wf (mkSso []) = true := by decide

theorem reserve_fail {alloc : Nat → Bool} {s : String} {n : Nat}
    (h : (reserve alloc s n).1 = false) : (reserve alloc s n).2 = s := by
  cases s with
  | sso b =>
    simp only [reserve] at h ⊢
    split_ifs at h ⊢ <;> simp_all
  | ptr b =>
    cases hb : b.buffer with
    | none =>
      simp only [reserve, hb] at h ⊢
      split_ifs at h ⊢ <;> simp_all
    | some buf =>
      simp only [reserve, hb] at h ⊢
      split_ifs at h ⊢ <;> simp_all

theorem reserve_succ {alloc : Nat → Bool} {s : String} {n : Nat} (hwf : wf s = true)
    (h : (reserve alloc s n).1 = true) :
    wf (reserve alloc s n).2 = true ∧
    n ≤ (reserve alloc s n).2.capacity ∧
    (reserve alloc s n).2.isNull = false ∧
    (reserve alloc s n).2.length = s.length ∧
    (reserve alloc s n).2.content = s.content := by
  cases s with
  | sso b =>
    rw [wf, wfBuf_iff] at hwf
    have htk : (b.buffer.take b.len).length = b.len := by
      simp
      omega
    simp only [reserve] at h ⊢
    split_ifs at h ⊢ with h1 h2
    · exact ⟨by rw [wf, wfBuf_iff]; exact hwf, h1, rfl, rfl, rfl⟩
    · refine ⟨wf_heapBuf htk (by omega), by simp [String.capacity], rfl,
        by simp [String.length], ?_⟩
      show (String.ptr ⟨some (mkBuf (b.buffer.take b.len) n), b.len, n⟩).content =
        (String.sso b).content
      rw [content_heapBuf htk (by omega)]
      rfl
  | ptr b =>
    cases hb : b.buffer with
    | none =>
      rw [wf, hb] at hwf
      simp only [Bool.and_eq_true, beq_iff_eq] at hwf
      simp only [reserve, hb] at h ⊢
      split_ifs at h ⊢ with h1 h2
      · refine ⟨wf_mkSsoNil, by simp [mkSso, String.capacity]; omega, rfl, ?_, ?_⟩
        · show min ([] : List Char).length SSO_CAPACITY = b.len
          simp
          omega
        · show (mkBuf [] SSO_CAPACITY).take (min ([] : List Char).length SSO_CAPACITY) =
            (String.ptr b).content
          rw [String.content, String.cbuffer, hb]
          simp
      · refine ⟨wf_heapBuf rfl (by omega), by simp [String.capacity], rfl, ?_, ?_⟩
        · show (0 : Nat) = b.len
          omega
        · simp [String.content, String.cbuffer, String.length, hb]
    | some buf =>
      rw [wf, hb, wfBuf_iff] at hwf
      have htk : (buf.take b.len).length = b.len := by
        simp
        omega
      simp only [reserve, hb] at h ⊢
      split_ifs at h ⊢ with h1 h2
      · refine ⟨?_, h1, ?_, rfl, rfl⟩
        · rw [wf, hb, wfBuf_iff]
          exact hwf
        · rw [String.isNull, hb]
          rfl
      · refine ⟨wf_heapBuf htk (by omega), by simp [String.capacity], rfl,
          by simp [String.length], ?_⟩
        rw [content_heapBuf htk (by omega), String.content, String.cbuffer, hb]
        rfl

theorem reserve_allocTrue (s : String) (n : Nat) : (reserve allocTrue s n).1 = true := by
  cases s with
  | sso b =>
    simp only [reserve, allocTrue]
    split_ifs <;> rfl
  | ptr b =>
    cases hb : b.buffer with
    | none =>
      simp only [reserve, hb, allocTrue]
      split_ifs <;> rfl
    | some buf =>
      simp only [reserve, hb, allocTrue]
      split_ifs <;> rfl

theorem getD_set_self {l : List Char} {i : Nat} {a d : Char} (h : i < l.length) :
    (l.set i a).getD i d = a := by
  rw [List.getD_eq_getElem?_getD, List.getElem?_set_self h]
  rfl

theorem setlen_wf {t : String} {n : Nat} (hwf : wf t = true) (hnull : t.isNull = false)
    (h : n ≤ t.capacity) : wf (t.setlen n) = true := by
  cases t with
  | sso b =>
    rw [wf, wfBuf_iff] at hwf
    rw [String.capacity] at h
    rw [String.setlen, wf, wfBuf_iff]
    exact ⟨by simp [hwf.1], h, getD_set_self (by omega)⟩
  | ptr b =>
    cases hb : b.buffer with
    | none =>
      rw [String.isNull, hb] at hnull
      simp at hnull
    | some buf =>
      rw [wf, hb, wfBuf_iff] at hwf
      rw [String.capacity] at h
      rw [String.setlen, wf]
      simp only [hb, Option.map]
      rw [wfBuf_iff]
      exact ⟨by simp [hwf.1], h, getD_set_self (by omega)⟩

theorem setLength_fail {alloc : Nat → Bool} {s : String} {n : Nat}
    (h : (setLength alloc s n).1 = false) : (setLength alloc s n).2 = s := by
  simp only [setLength] at h ⊢
  split_ifs at h ⊢ <;> simp_all

theorem setLength_wf {alloc : Nat → Bool} {s : String} {n : Nat} (hwf : wf s = true) :
    wf (setLength alloc s n).2 = true := by
  simp only [setLength]
  split_ifs with h1
  · have hr := reserve_succ hwf h1
    exact setlen_wf hr.1 hr.2.2.1 hr.2.1
  · exact hwf

theorem concat_fail {alloc : Nat → Bool} {s : String} {src : Option (List Char)}
    {n : Nat} (h : (concat alloc s src n).1 = false) : (concat alloc s src n).2 = s := by
  cases src with
  | none => simp [concat] at h
  | some bytes =>
    simp only [concat] at h ⊢
    split_ifs at h ⊢ <;> simp_all

theorem concat_wf {alloc : Nat → Bool} {s : String} {src : Option (List Char)}
    {n : Nat} (hwf : wf s = true) : wf (concat alloc s src n).2 = true := by
  cases src with
  | none => exact hwf
  | some bytes =>
    simp only [concat]
    split_ifs with h1 h2
    · exact hwf
    · exact wf_withContent _ _
    · exact hwf

theorem concat_allocTrue_fst (s : String) (bytes : List Char) (n : Nat) :
    (concat allocTrue s (some bytes) n).1 = true := by
  simp only [concat]
  split_ifs with h1 h2
  · rfl
  · rfl
  · exact absurd (reserve_allocTrue s (s.length + n)) h2

theorem concat_content {alloc : Nat → Bool} {s : String} {bytes : List Char} {n : Nat}
    (hwf : wf s = true) (h : (concat alloc s (some bytes) n).1 = true) :
    (concat alloc s (some bytes) n).2.content = s.content ++ bytes.take n := by
  simp only [concat] at h ⊢
  split_ifs at h ⊢ with h1 h2
  · subst h1
    simp
  · have hr := reserve_succ hwf h2
    refine content_withContent ?_
    have hc := wf_content_length hwf
    have hcap := hr.2.1
    simp only [List.length_append, List.length_take, hc]
    omega

theorem removeRange_capacity (s : String) (i cnt : Nat) :
    (removeRange s i cnt).capacity = s.capacity := by
  rw [removeRange]
  split_ifs
  · rfl
  · exact capacity_withContent _ _

theorem removeRange_ssoMode (s : String) (i cnt : Nat) :
    (removeRange s i cnt).ssoMode = s.ssoMode := by
  rw [removeRange]
  split_ifs
  · rfl
  · exact ssoMode_withContent _ _

theorem removeRange_content {s : String} (hwf : wf s = true) (i cnt : Nat) :
    (removeRange s i cnt).content = s.content.take i ++ s.content.drop (i + cnt) := by
  have hc := wf_content_length hwf
  have hcap := wf_length_le_capacity hwf
  rw [removeRange]
  split_ifs with h1
  · rw [List.take_of_length_le (by omega), List.drop_of_length_le (by omega),
      List.append_nil]
  · have hbound :
        (s.content.take i ++ s.content.drop (i + min cnt (s.length - i))).length ≤
          s.capacity := by
      rw [List.length_append, List.length_take, List.length_drop, hc]
      omega
    rw [content_withContent hbound]
    have hmin : min cnt (s.length - i) = cnt ∨ i + min cnt (s.length - i) = s.length := by
      omega
    rcases hmin with hm | hm
    · rw [hm]
    · rw [hm, List.drop_of_length_le (by omega), List.drop_of_length_le (by omega)]

theorem removeRange_wf {s : String} (hwf : wf s = true) (i cnt : Nat) :
    wf (removeRange s i cnt) = true := by
  rw [removeRange]
  split_ifs
  · exact hwf
  · exact wf_withContent _ _

theorem removeRange_length {s : String} (hwf : wf s = true) {i : Nat} (cnt : Nat)
    (h : i < s.length) :
    (removeRange s i cnt).length = s.length - min cnt (s.length - i) := by
  have hc := wf_content_length hwf
  have hcap := wf_length_le_capacity hwf
  rw [removeRange, if_neg (by omega), length_withContent]
  simp
  omega

theorem trim_wf {s : String} (hwf : wf s = true) (chars : List Char) :
    wf (trim s chars) = true := by
  rw [trim]
  split_ifs
  · exact hwf
  · exact wf_withContent _ _

theorem trimList_length_le (chars c : List Char) :
    (trimList chars c).length ≤ c.length := by
  rw [trimList, List.length_reverse]
  calc (List.dropWhile chars.contains
        (List.dropWhile chars.contains c).reverse).length
      ≤ (List.dropWhile chars.contains c).reverse.length :=
        (List.dropWhile_sublist _).length_le
    _ = (List.dropWhile chars.contains c).length := List.length_reverse _
    _ ≤ c.length := (List.dropWhile_sublist _).length_le

theorem pad_fail {alloc : Nat → Bool} {s : String} {w : Int} {c : Char}
    (h : (pad alloc s w c).1 = false) : (pad alloc s w c).2 = s := by
  simp only [pad] at h ⊢
  split_ifs at h ⊢ <;> simp_all

theorem pad_wf {alloc : Nat → Bool} {s : String} {w : Int} {c : Char}
    (hwf : wf s = true) : wf (pad alloc s w c).2 = true := by
  simp only [pad]
  split_ifs <;> first | exact wf_withContent _ _ | exact hwf

theorem toLowerCase_wf {s : String} (hwf : wf s = true) :
    wf (toLowerCase s) = true := by
  rw [toLowerCase]
  split_ifs
  · exact hwf
  · exact wf_withContent _ _

theorem toUpperCase_wf {s : String} (hwf : wf s = true) :
    wf (toUpperCase s) = true := by
  rw [toUpperCase]
  split_ifs
  · exact hwf
  · exact wf_withContent _ _

theorem setCharAt_wf {s : String} (hwf : wf s = true) (i : Nat) (c : Char) :
    wf (setCharAt s i c) = true := by
  rw [setCharAt]
  split_ifs
  · exact wf_withContent _ _
  · exact hwf

theorem wf_defaultString : wf defaultString = true := by decide

theorem copyFn_wf (alloc : Nat → Bool) (s : String) (bytes : List Char) (n : Nat) :
    wf (copyFn alloc s bytes n) = true := by
  rw [copyFn]
  split_ifs
  · exact wf_withContent _ _
  · exact wf_defaultString

theorem copyFn_content {alloc : Nat → Bool} {s : String} {bytes : List Char} {n : Nat}
    (hwf : wf s = true) (h : (reserve alloc s n).1 = true) :
    copyFn alloc s bytes n = (reserve alloc s n).2.withContent (bytes.take n) ∧
    (copyFn alloc s bytes n).content = bytes.take n := by
  rw [copyFn]
  rw [if_pos h]
  have hr := reserve_succ hwf h
  exact ⟨rfl, content_withContent (by simp; omega)⟩

theorem stringFromCStrLen_wf (alloc : Nat → Bool) (cstr : Option (List Char)) (n : Nat) :
    wf (stringFromCStrLen alloc cstr n) = true := by
  cases cstr with
  | none => exact wf_defaultString
  | some bytes => exact copyFn_wf _ _ _ _

theorem copyAssign_wf (alloc : Nat → Bool) (dst src : String) :
    wf (copyAssign alloc dst src) = true := by
  simp only [copyAssign]
  split_ifs <;> first | exact wf_withContent _ _ | exact wf_defaultString

theorem copyAssign_content {alloc : Nat → Bool} {dst src : String}
    (hdst : wf dst = true) (hsrc : wf src = true) (hnull : src.isNull = false)
    (h : (reserve alloc dst src.length).1 = true) :
    (copyAssign alloc dst src).content = src.content := by
  rw [copyAssign, if_neg (by simp [hnull]), if_pos h]
  have hr := reserve_succ hdst h
  exact content_withContent (by rw [wf_content_length hsrc]; omega)

theorem replaceAllAux_fuel (find repl : List Char) :
    ∀ (f g : Nat) (s : List Char), s.length ≤ f → s.length ≤ g →
      replaceAllAux find repl f s = replaceAllAux find repl g s := by
  intro f
  induction f using Nat.strong_induction_on with
  | _ f ih =>
    intro g s hf hg
    cases s with
    | nil => cases f <;> cases g <;> rfl
    | cons c rest =>
      cases f with
      | zero => simp at hf
      | succ f' =>
        cases g with
        | zero => simp at hg
        | succ g' =>
          simp only [replaceAllAux]
          by_cases hcond : (!find.isEmpty && matchesAt find (c :: rest)) = true
          · rw [if_pos hcond, if_pos hcond]
            have hfind : 1 ≤ find.length := by
              cases find with
              | nil => simp at hcond
              | cons a as => simp
            simp only [List.length_cons] at hf hg
            congr 1
            apply ih f' (by omega)
            · simp
              omega
            · simp
              omega
          · rw [if_neg hcond, if_neg hcond]
            simp only [List.length_cons] at hf hg
            congr 1
            exact ih f' (by omega) g' rest (by omega) (by omega)

theorem replaceAllAux_nil_find (repl : List Char) :
    ∀ (fuel : Nat) (s : List Char), replaceAllAux [] repl fuel s = s := by
  intro fuel
  induction fuel with
  | zero => intro s; rfl
  | succ f ih =>
    intro s
    cases s with
    | nil => rfl
    | cons c rest =>
      simp only [replaceAllAux]
      rw [if_neg (by simp), ih]

theorem matchesAt_append (find t : List Char) : matchesAt find (find ++ t) = true := by
  induction find with
  | nil => rfl
  | cons a as ih => simp [matchesAt, ih]

theorem replaceAll_resume (a : Char) (as repl t : List Char) :
    replaceAll (a :: as) repl ((a :: as) ++ t) = repl ++ replaceAll (a :: as) repl t := by
  show replaceAllAux (a :: as) repl ((as ++ t).length + 1) (a :: (as ++ t)) = _
  simp only [replaceAllAux]
  rw [if_pos (by simp [matchesAt, matchesAt_append])]
  rw [show (a :: (as ++ t)).drop (a :: as).length = t from by simp]
  congr 1
  exact replaceAllAux_fuel _ _ _ _ t (by simp) (le_refl _)

theorem replaceAll_step_nomatch {find : List Char} (repl : List Char) {c : Char}
    {rest : List Char} (h : matchesAt find (c :: rest) = false) :
    replaceAll find repl (c :: rest) = c :: replaceAll find repl rest := by
  show replaceAllAux find repl (rest.length + 1) (c :: rest) = _
  simp only [replaceAllAux]
  rw [if_neg (by simp [h])]
  rfl

theorem replaceSeq_fail {alloc : Nat → Bool} {s : String} {find repl : List Char}
    (h : (replaceSeq alloc s find repl).1 = false) :
    (replaceSeq alloc s find repl).2 = s := by
  simp only [replaceSeq] at h ⊢
  split_ifs at h ⊢ <;> simp_all

theorem replaceSeq_wf {alloc : Nat → Bool} {s : String} {find repl : List Char}
    (hwf : wf s = true) : wf (replaceSeq alloc s find repl).2 = true := by
  simp only [replaceSeq]
  split_ifs <;> first | exact wf_withContent _ _ | exact hwf

theorem replaceSeq_content {alloc : Nat → Bool} {s : String} {find repl : List Char}
    (hwf : wf s = true) (h : (replaceSeq alloc s find repl).1 = true) :
    (replaceSeq alloc s find repl).2.content = replaceAll find repl s.content := by
  simp only [replaceSeq] at h ⊢
  split_ifs at h ⊢ with h1 h2 h3
  · rcases h1 with h1 | h1
    · have hc : s.content = [] := by
        have := wf_content_length hwf
        rw [← List.length_eq_zero]
        omega
      rw [hc]
      rfl
    · subst h1
      rw [replaceAll, replaceAllAux_nil_find]
  · exact content_withContent h2
  · have hr := reserve_succ hwf h3
    exact content_withContent (by omega)

theorem chainConcat_wf (parts : List (List Char)) :
    ∀ init : String, wf init = true → wf (chainConcat allocTrue init parts) = true := by
  induction parts with
  | nil =>
    intro init h
    exact h
  | cons p ps ih =>
    intro init h
    exact ih _ (concat_wf h)

theorem chainConcat_content (parts : List (List Char)) :
    ∀ init : String, wf init = true →
      (chainConcat allocTrue init parts).content = init.content ++ parts.flatten := by
  induction parts with
  | nil =>
    intro init h
    simp [chainConcat]
  | cons p ps ih =>
    intro init h
    have hstep : chainConcat allocTrue init (p :: ps) =
        chainConcat allocTrue ((concat allocTrue init (some p) p.length).2) ps := rfl
    rw [hstep, ih _ (concat_wf h),
      concat_content h (concat_allocTrue_fst init p p.length)]
    simp

theorem sumAddString_content {acc : String} (rhs : String) (h1 : wf acc = true) :
    (sumAddString allocTrue acc rhs).content = acc.content ++ rhs.content := by
  rw [sumAddString, concatString]
  cases hc : rhs.cbuffer with
  | none =>
    have hr : rhs.content = [] := by
      rw [String.content, hc]
      simp
    simp [concat, hr]
  | some buf =>
    rw [concat_content h1 (concat_allocTrue_fst _ _ _)]
    congr 1
    rw [String.content, hc]
    rfl

theorem reserve_denied {alloc : Nat → Bool} {s : String} {n : Nat}
    (hcap : s.capacity < n) (hsso : SSO_CAPACITY < n)
    (halloc : alloc (n + 1) = false) : reserve alloc s n = (false, s) := by
  cases s with
  | sso b =>
    simp only [reserve]
    rw [if_neg (by omega), if_neg (by simp [halloc])]
  | ptr b =>
    cases hb : b.buffer with
    | none =>
      simp only [reserve, hb]
      rw [if_neg (by omega), if_neg (by simp [halloc])]
    | some buf =>
      rw [String.capacity] at hcap
      simp only [reserve, hb]
      rw [if_neg (by omega), if_neg (by simp [halloc])]

theorem reserve_denied_nonNull {alloc : Nat → Bool} {s : String} {n : Nat}
    (hnull : s.isNull = false) (hcap : s.capacity < n)
    (halloc : alloc (n + 1) = false) : reserve alloc s n = (false, s) := by
  cases s with
  | sso b =>
    rw [String.capacity] at hcap
    exact reserve_denied (by rw [String.capacity]; omega) hcap halloc
  | ptr b =>
    cases hb : b.buffer with
    | none =>
      rw [String.isNull, hb] at hnull
      simp at hnull
    | some buf =>
      rw [String.capacity] at hcap
      simp only [reserve, hb]
      rw [if_neg (by omega), if_neg (by simp [halloc])]

theorem setLength_denied {alloc : Nat → Bool} {s : String} {n : Nat}
    (hcap : s.capacity < n) (hsso : SSO_CAPACITY < n)
    (halloc : alloc (n + 1) = false) : setLength alloc s n = (false, s) := by
  simp only [setLength, reserve_denied hcap hsso halloc]
  rfl

theorem concat_denied {alloc : Nat → Bool} {s : String} {bytes : List Char} {m : Nat}
    (hm : ¬m = 0) (hcap : s.capacity < s.length + m)
    (hsso : SSO_CAPACITY < s.length + m)
    (halloc : alloc (s.length + m + 1) = false) :
    concat alloc s (some bytes) m = (false, s) := by
  simp only [concat, reserve_denied hcap hsso halloc]
  rw [if_neg hm]
  rfl

theorem replaceSeq_denied {alloc : Nat → Bool} {s : String} {find repl : List Char}
    (hwf : wf s = true) (hlen : ¬s.length = 0) (hfind : ¬find = [])
    (hcap : s.capacity < (replaceAll find repl s.content).length)
    (halloc : alloc ((replaceAll find repl s.content).length + 1) = false) :
    replaceSeq alloc s find repl = (false, s) := by
  have hnull : s.isNull = false := by
    cases s with
    | sso b => rfl
    | ptr b =>
      cases hb : b.buffer with
      | none =>
        rw [wf, hb] at hwf
        simp only [Bool.and_eq_true, beq_iff_eq] at hwf
        rw [String.length] at hlen
        exact absurd hwf.1 hlen
      | some buf =>
        rw [String.isNull, hb]
        rfl
  simp only [replaceSeq, reserve_denied_nonNull hnull hcap halloc]
  rw [if_neg (by push_neg; exact ⟨hlen, hfind⟩), if_neg (by omega)]
  rfl

theorem reserve_zero (alloc : Nat → Bool) (s : String) :
    (reserve alloc s 0).1 = true := by
  cases s with
  | sso b => rfl
  | ptr b =>
    cases hb : b.buffer with
    | none =>
      simp only [reserve, hb]
      rfl
    | some buf =>
      simp only [reserve, hb]
      rw [if_pos (Nat.zero_le _)]

theorem assignCStr_null_src (alloc : Nat → Bool) (dst : String) :
    (assignCStr alloc dst none).isNull = false ∧
    (assignCStr alloc dst none).content = [] := by
  rw [assignCStr]
  simp only [Option.getD_none, List.length_nil]
  rw [copyFn]
  simp only [reserve_zero alloc dst, if_pos]
  exact ⟨isNull_withContent _ _,
    (content_withContent (Nat.zero_le _)).trans rfl⟩

/-- C1: for every well-formed String, after every successful public
operation (construction from a byte run or a null pointer, copy
assignment, concat, setLength, replace, remove, trim, pad, case
conversion, setCharAt, and the underlying `setlen` primitive) the byte at
`cbuffer()[length]` is the NUL terminator and `length ≤ capacity`
(vacuous for a null result); unsuccessful operations leave the value
unchanged, so the invariant holds after every operation. -/
theorem C1_terminator_invariant (alloc : Nat → Bool) (s t : String)
    (bytes find repl chars : List Char) (n i cnt m : Nat) (w : Int) (c : Char)
    (h1 : wf s = true) (h3 : s.isNull = false)
    (h4 : m ≤ s.capacity) :
    termOK (stringFromCStrLen alloc (some bytes) n) = true ∧
    termOK (stringFromCStrLen alloc none n) = true ∧
    termOK (copyAssign alloc s t) = true ∧
    termOK ((concat alloc s (some bytes) n).2) = true ∧
    termOK ((setLength alloc s n).2) = true ∧
    termOK ((replaceSeq alloc s find repl).2) = true ∧
    termOK (removeRange s i cnt) = true ∧
    termOK (trim s chars) = true ∧
    termOK ((pad alloc s w c).2) = true ∧
    termOK (toLowerCase s) = true ∧
    termOK (toUpperCase s) = true ∧
    termOK (setCharAt s i c) = true ∧
    termOK (s.setlen m) = true :=
  ⟨wf_termOK (stringFromCStrLen_wf alloc (some bytes) n),
   wf_termOK (stringFromCStrLen_wf alloc none n),
   wf_termOK (copyAssign_wf alloc s t),
   wf_termOK (concat_wf h1),
   wf_termOK (setLength_wf h1),
   wf_termOK (replaceSeq_wf h1),
   wf_termOK (removeRange_wf h1 i cnt),
   wf_termOK (trim_wf h1 chars),
   wf_termOK (pad_wf h1),
   wf_termOK (toLowerCase_wf h1),
   wf_termOK (toUpperCase_wf h1),
   wf_termOK (setCharAt_wf h1 i c),
   wf_termOK (setlen_wf h1 h3 h4)⟩

theorem C1_witness :
    wf helloS = true ∧ helloS.isNull = false ∧
    3 ≤ helloS.capacity ∧
    (termOK (stringFromCStrLen allocTrue (some ['a', 'b']) 2) = true ∧
     termOK (stringFromCStrLen allocTrue none 2) = true ∧
     termOK (copyAssign allocTrue helloS helloS) = true ∧
     termOK ((concat allocTrue helloS (some ['a', 'b']) 2).2) = true ∧
     termOK ((setLength allocTrue helloS 2).2) = true ∧
     termOK ((replaceSeq allocTrue helloS ['l'] ['L', 'L']).2) = true ∧
     termOK (removeRange helloS 1 2) = true ∧
     termOK (trim helloS defaultTrimSet) = true ∧
     termOK ((pad allocTrue helloS (-7) 'z').2) = true ∧
     termOK (toLowerCase helloS) = true ∧
     termOK (toUpperCase helloS) = true ∧
     termOK (setCharAt helloS 1 'z') = true ∧
     termOK (helloS.setlen 3) = true) :=
  ⟨by decide, by decide, by decide,
   C1_terminator_invariant allocTrue helloS helloS ['a', 'b'] ['l'] ['L', 'L']
     defaultTrimSet 2 1 2 3 (-7) 'z' (by decide) (by decide) (by decide)⟩

/-- C2: when the allocation backing a growth-requiring mutation is denied,
the operation reports failure (returns false) and the String is left
exactly as before the call: `reserve` and `setLength` growing past the
current capacity, `concat` growing past the capacity, and `replace` whose
result outgrows the capacity all return `(false, s)` when the allocator
refuses the request; and whenever any of these operations reports
failure, the returned state equals the original, so no partially-applied
state is ever observable. -/
theorem C2_failure_leaves_state_unchanged (alloc : Nat → Bool) (s : String)
    (n m n2 m2 : Nat) (bytes find repl : List Char)
    (src2 : Option (List Char)) (find2 repl2 : List Char)
    (hwf : wf s = true)
    (hn1 : s.capacity < n) (hn2 : SSO_CAPACITY < n) (hn3 : alloc (n + 1) = false)
    (hm0 : ¬m = 0) (hm1 : s.capacity < s.length + m)
    (hm2 : SSO_CAPACITY < s.length + m) (hm3 : alloc (s.length + m + 1) = false)
    (hr0 : ¬s.length = 0) (hr1 : ¬find = [])
    (hr2 : s.capacity < (replaceAll find repl s.content).length)
    (hr3 : alloc ((replaceAll find repl s.content).length + 1) = false) :
    reserve alloc s n = (false, s) ∧
    setLength alloc s n = (false, s) ∧
    concat alloc s (some bytes) m = (false, s) ∧
    replaceSeq alloc s find repl = (false, s) ∧
    ((reserve alloc s n2).1 = false → (reserve alloc s n2).2 = s) ∧
    ((setLength alloc s n2).1 = false → (setLength alloc s n2).2 = s) ∧
    ((concat alloc s src2 m2).1 = false → (concat alloc s src2 m2).2 = s) ∧
    ((replaceSeq alloc s find2 repl2).1 = false →
      (replaceSeq alloc s find2 repl2).2 = s) :=
  ⟨reserve_denied hn1 hn2 hn3, setLength_denied hn1 hn2 hn3,
   concat_denied hm0 hm1 hm2 hm3, replaceSeq_denied hwf hr0 hr1 hr2 hr3,
   reserve_fail, setLength_fail, concat_fail, replaceSeq_fail⟩

theorem C2_witness :
    wf helloS = true ∧
    helloS.capacity < 20 ∧ SSO_CAPACITY < 20 ∧ allocFalse (20 + 1) = false ∧
    ¬(6 : Nat) = 0 ∧ helloS.capacity < helloS.length + 6 ∧
    SSO_CAPACITY < helloS.length + 6 ∧ allocFalse (helloS.length + 6 + 1) = false ∧
    ¬helloS.length = 0 ∧ ¬(['l'] : List Char) = [] ∧
    helloS.capacity < (replaceAll ['l'] "LLLLLLLL".toList helloS.content).length ∧
    allocFalse ((replaceAll ['l'] "LLLLLLLL".toList helloS.content).length + 1) =
      false ∧
    (reserve allocFalse helloS 20 = (false, helloS) ∧
      setLength allocFalse helloS 20 = (false, helloS) ∧
      concat allocFalse helloS (some "world!".toList) 6 = (false, helloS) ∧
      replaceSeq allocFalse helloS ['l'] "LLLLLLLL".toList = (false, helloS) ∧
      ((reserve allocFalse helloS 20).1 = false →
        (reserve allocFalse helloS 20).2 = helloS) ∧
      ((setLength allocFalse helloS 20).1 = false →
        (setLength allocFalse helloS 20).2 = helloS) ∧
      ((concat allocFalse helloS (some "world!".toList) 6).1 = false →
        (concat allocFalse helloS (some "world!".toList) 6).2 = helloS) ∧
      ((replaceSeq allocFalse helloS ['l'] "LLLLLLLL".toList).1 = false →
        (replaceSeq allocFalse helloS ['l'] "LLLLLLLL".toList).2 = helloS)) :=
  ⟨by decide, by decide, by decide, by decide, by decide, by decide, by decide,
   by decide, by decide, by decide, by decide, by decide,
   C2_failure_leaves_state_unchanged allocFalse helloS 20 6 20 6 "world!".toList
     ['l'] "LLLLLLLL".toList (some "world!".toList) ['l'] "LLLLLLLL".toList
     (by decide) (by decide) (by decide) (by decide) (by decide) (by decide)
     (by decide) (by decide) (by decide) (by decide) (by decide) (by decide)⟩

/-- C3: a default-constructed String is null (`isNull()` true, `length()`
0, boolean context false); `reserve(0)` on it succeeds for every allocator
(no heap touched) and yields a valid empty string (`isNull()` false,
`length()` 0, boolean context true).  Values have no shared state in this
model, so no other instance is affected. -/
theorem C3_default_null_and_reserve0_validates (alloc : Nat → Bool) :
    defaultString.isNull = true ∧
    defaultString.length = 0 ∧
    defaultString.boolCtx = false ∧
    (reserve alloc defaultString 0).1 = true ∧
    (reserve alloc defaultString 0).2.isNull = false ∧
    (reserve alloc defaultString 0).2.length = 0 ∧
    (reserve alloc defaultString 0).2.boolCtx = true :=
  ⟨rfl, rfl, rfl, rfl, rfl, rfl, rfl⟩

/-- C4: move-construction and move-assignment between distinct objects
transfer the source representation verbatim to the destination and reset
the source to the null state, with no allocator involved and no deep
copy; the self-move branch of `operator=` (the `this != &rval` check in
WString.h) leaves the value untouched. -/
theorem C4_move_transfers_and_self_move_noop (dst src s : String) :
    opAssignMove dst src false = (src, defaultString) ∧
    moveCtor src = (src, defaultString) ∧
    defaultString.isNull = true ∧
    opAssignMove s s true = (s, s) :=
  ⟨rfl, rfl, rfl, rfl⟩

/-- C5: `replace(findSeq, replaceSeq)` replaces all non-overlapping
occurrences scanning left-to-right: a successful call rewrites the content
by `replaceAll`; `replaceAll` consumes a leading occurrence in one step and
resumes after the replacement's end, so inserted text is never rescanned,
and skips exactly one byte when no occurrence starts there; in particular
`replace("l", "LL")` on "hello" yields "heLLLLo". -/
theorem C5_replace_leftToRight_resume (alloc : Nat → Bool) (s : String)
    (find repl t rest fs : List Char) (a c : Char)
    (hwf : wf s = true)
    (h : (replaceSeq alloc s find repl).1 = true)
    (hnm : matchesAt (a :: fs) (c :: rest) = false) :
    (replaceSeq alloc s find repl).2.content = replaceAll find repl s.content ∧
    replaceAll (a :: fs) repl ((a :: fs) ++ t) = repl ++ replaceAll (a :: fs) repl t ∧
    replaceAll (a :: fs) repl (c :: rest) = c :: replaceAll (a :: fs) repl rest ∧
    (replaceSeq allocTrue helloS ['l'] ['L', 'L']).1 = true ∧
    (replaceSeq allocTrue helloS ['l'] ['L', 'L']).2.content = "heLLLLo".toList :=
  ⟨replaceSeq_content hwf h, replaceAll_resume a fs repl t,
   replaceAll_step_nomatch repl hnm, by decide, by decide⟩

theorem C5_witness :
    wf helloS = true ∧
    (replaceSeq allocTrue helloS ['l'] ['L', 'L']).1 = true ∧
    matchesAt ['l'] ('h' :: "ey".toList) = false ∧
    ((replaceSeq allocTrue helloS ['l'] ['L', 'L']).2.content =
        replaceAll ['l'] ['L', 'L'] helloS.content ∧
      replaceAll ['l'] ['L', 'L'] (['l'] ++ "xy".toList) =
        ['L', 'L'] ++ replaceAll ['l'] ['L', 'L'] "xy".toList ∧
      replaceAll ['l'] ['L', 'L'] ('h' :: "ey".toList) =
        'h' :: replaceAll ['l'] ['L', 'L'] "ey".toList ∧
      (replaceSeq allocTrue helloS ['l'] ['L', 'L']).1 = true ∧
      (replaceSeq allocTrue helloS ['l'] ['L', 'L']).2.content = "heLLLLo".toList) :=
  ⟨by decide, by decide, by decide,
   C5_replace_leftToRight_resume allocTrue helloS ['l'] ['L', 'L'] "xy".toList
     "ey".toList [] 'l' 'h' (by decide) (by decide) (by decide)⟩

/-- C6 counterexample: the claim's concrete scenario fails — deleting the
byte range [1, 1+2) of "hello" removes "el", giving "hlo" of length 3,
not "ho" of length 2. -/
theorem C6_counterexample :
    (removeRange helloS 1 2).content = "hlo".toList ∧
    (removeRange helloS 1 2).length = 3 ∧
    ¬(removeRange helloS 1 2).content = "ho".toList ∧
    ¬(removeRange helloS 1 2).length = 2 := by
  decide

/-- C6 (amended): `remove(index, count)` deletes the byte range
`[index, index + count)` clamped to `[0, length]`, shifts trailing bytes
left, updates the length, and never reallocates (capacity and storage mode
are preserved and no allocator takes part); in particular `remove(1, 2)`
on "hello" yields "hlo" with length 3. -/
theorem C6_remove_deletes_range (s : String) (i cnt : Nat) (hwf : wf s = true) :
    (removeRange s i cnt).content = s.content.take i ++ s.content.drop (i + cnt) ∧
    (removeRange s i cnt).capacity = s.capacity ∧
    (removeRange s i cnt).ssoMode = s.ssoMode ∧
    (i < s.length → (removeRange s i cnt).length = s.length - min cnt (s.length - i)) ∧
    (removeRange helloS 1 2).content = "hlo".toList ∧
    (removeRange helloS 1 2).length = 3 :=
  ⟨removeRange_content hwf i cnt, removeRange_capacity s i cnt,
   removeRange_ssoMode s i cnt, fun h => removeRange_length hwf cnt h,
   by decide, by decide⟩

theorem C6_witness :
    wf helloS = true ∧
    ((removeRange helloS 1 2).content =
        helloS.content.take 1 ++ helloS.content.drop (1 + 2) ∧
      (removeRange helloS 1 2).capacity = helloS.capacity ∧
      (removeRange helloS 1 2).ssoMode = helloS.ssoMode ∧
      (1 < helloS.length →
        (removeRange helloS 1 2).length = helloS.length - min 2 (helloS.length - 1)) ∧
      (removeRange helloS 1 2).content = "hlo".toList ∧
      (removeRange helloS 1 2).length = 3) :=
  ⟨by decide, C6_remove_deletes_range helloS 1 2 (by decide)⟩

/-- C7 counterexample: constructing via the `(const char*, size_t)`
constructor from a null pointer yields a null String (boolean context
false), whereas supplying an actual empty source yields a valid empty
String (boolean context true) — so for construction a null pointer is not
treated the same as an empty source. -/
theorem C7_counterexample :
    (stringFromCStrLen allocTrue none 0).boolCtx = false ∧
    (stringFromCStrLen allocTrue (some []) 0).boolCtx = true := by
  decide

/-- C7 (amended): a null source pointer is never dereferenced and never a
hard error.  For append (`concat`), it is treated as an empty source: the
content is left unchanged and success is reported.  For assignment
(`operator=(const char*)`), it is likewise treated as exactly an empty
source: assigning a null pointer coincides with assigning an empty byte
run and yields a valid empty string.  For construction, however, the
`(pointer, length)` constructor skips the copy and yields a null String
with empty content and zero length — the constructors' invalid state,
observably distinct from a valid empty string. -/
theorem C7_null_source_handling (alloc : Nat → Bool) (s dst : String) (n m : Nat) :
    stringFromCStrLen alloc none n = defaultString ∧
    (stringFromCStrLen alloc none n).content = [] ∧
    (stringFromCStrLen alloc none n).length = 0 ∧
    (stringFromCStrLen alloc none n).isNull = true ∧
    concat alloc s none m = (true, s) ∧
    assignCStr alloc dst none = assignCStr alloc dst (some []) ∧
    (assignCStr alloc dst none).isNull = false ∧
    (assignCStr alloc dst none).content = [] :=
  ⟨rfl, rfl, rfl, rfl, rfl, rfl, (assignCStr_null_src alloc dst).1,
   (assignCStr_null_src alloc dst).2⟩

/-- C8: evaluating a chained concatenation through the accumulator — a
fold of appends into one growing value — produces exactly the naive
left-to-right concatenation of the operands (with every allocation
succeeding); one accumulator append step appends the operand's content;
in particular `String(1) + String(2) + String(3)` rendered in base 10
yields "123". -/
theorem C8_chain_equals_naive_concatenation (parts : List (List Char))
    (init acc rhs : String) (h1 : wf init = true) (h2 : wf acc = true) :
    (chainConcat allocTrue init parts).content = init.content ++ parts.flatten ∧
    (sumAddString allocTrue acc rhs).content = acc.content ++ rhs.content ∧
    (sumAddString allocTrue (sumAddString allocTrue
        (sumHelperOfString allocTrue (stringFromNum allocTrue 1 10 0 '0'))
        (stringFromNum allocTrue 2 10 0 '0'))
      (stringFromNum allocTrue 3 10 0 '0')).content = "123".toList :=
  ⟨chainConcat_content parts init h1, sumAddString_content rhs h2, by decide⟩

theorem C8_witness :
    wf helloS = true ∧ wf helloS = true ∧
    ((chainConcat allocTrue helloS ["ab".toList, "c".toList]).content =
        helloS.content ++ ["ab".toList, "c".toList].flatten ∧
      (sumAddString allocTrue helloS helloS).content =
        helloS.content ++ helloS.content ∧
      (sumAddString allocTrue (sumAddString allocTrue
          (sumHelperOfString allocTrue (stringFromNum allocTrue 1 10 0 '0'))
          (stringFromNum allocTrue 2 10 0 '0'))
        (stringFromNum allocTrue 3 10 0 '0')).content = "123".toList) :=
  ⟨by decide, by decide,
   C8_chain_equals_naive_concatenation ["ab".toList, "c".toList] helloS helloS helloS
     (by decide) (by decide)⟩

/-- C9: out-of-range single-character access is defined, not erroneous:
`charAt`/`operator[]` yields the zero byte and `setCharAt` is silently
ignored, leaving the String unchanged. -/
theorem C9_out_of_range_access_defined (s : String) (i : Nat) (c : Char)
    (h : s.length ≤ i) :
    charAt s i = nul ∧ setCharAt s i c = s := by
  constructor
  · rw [charAt, if_neg (by omega)]
  · rw [setCharAt, if_neg (by omega)]

theorem C9_witness :
    helloS.length ≤ 7 ∧ (charAt helloS 7 = nul ∧ setCharAt helloS 7 'z' = helloS) :=
  ⟨by decide, C9_out_of_range_access_defined helloS 7 'z' (by decide)⟩

/-- C10: `c_str()` never yields a null pointer: for a null String it falls
back to the shared static `empty` String's buffer, and for every
well-formed String the returned buffer carries a NUL terminator at the end
of the content (index 0 for a null String, index `length` otherwise). -/
theorem C10_cstr_never_null (s : String) (hwf : wf s = true) :
    (c_str s).isSome = true ∧
    (s.isNull = true → c_str s = empty.cbuffer) ∧
    ((c_str s).getD []).getD (if s.isNull then 0 else s.length) 'x' = nul := by
  cases s with
  | sso b =>
    rw [wf, wfBuf_iff] at hwf
    refine ⟨rfl, by intro h; simp [String.isNull] at h, ?_⟩
    show b.buffer.getD b.len 'x' = nul
    exact hwf.2.2
  | ptr b =>
    cases hb : b.buffer with
    | none =>
      have hn : (String.ptr b).isNull = true := by
        rw [String.isNull, hb]
        rfl
      refine ⟨?_, ?_, ?_⟩
      · simp [c_str, String.cbuffer, hb, empty, mkSso]
      · intro _
        simp [c_str, String.cbuffer, hb]
      · simp [c_str, String.cbuffer, hb, hn, empty, mkSso, mkBuf, nul]
    | some buf =>
      rw [wf, hb, wfBuf_iff] at hwf
      refine ⟨?_, ?_, ?_⟩
      · simp [c_str, String.cbuffer, hb]
      · intro h
        rw [String.isNull, hb] at h
        simp at h
      · have hn : (String.ptr b).isNull = false := by
          rw [String.isNull, hb]
          rfl
        rw [hn]
        simp only [c_str, String.cbuffer, hb, Option.getD_some, if_neg]
        show buf.getD b.len 'x' = nul
        exact hwf.2.2

theorem C10_witness :
    wf helloS = true ∧
    ((c_str helloS).isSome = true ∧
      (helloS.isNull = true → c_str helloS = empty.cbuffer) ∧
      ((c_str helloS).getD []).getD (if helloS.isNull then 0 else helloS.length) 'x' =
        nul) :=
  ⟨by decide, C10_cstr_never_null helloS (by decide)⟩

end Wiring
